import Mathlib

/-!
Verification development for the hotel-room hybrid search core
(`src/hybrid_search.py`, class `HybridSearch`).

Python floats are modelled as rationals (`ℚ`): every score in the core is
built from additions of `1.0`, a single division, and two weighted products,
all of which are exact. Python dicts are modelled as association lists in
insertion order (keys unique, as guaranteed by `dict`). The external OpenAI
embedding provider and the (float, square-root based) cosine similarity are
modelled as oracle parameters `emb : String → V` and a similarity function,
exactly as the spec treats them (opaque collaborators).
-/

/-- Python `str.lower()`, written over the character list so that it reduces
in the kernel (`String.map` recurses on byte positions and does not). -/
def lower (s : String) : String := String.mk (s.data.map Char.toLower)

/-- Python substring containment `needle in haystack` for strings
(the empty needle is contained in everything). -/
def strIn (needle haystack : String) : Bool :=
  decide (needle.toList <:+: haystack.toList)

/-- The common JSON shape of a structured query (`query_json`, from QueryAgent)
and a candidate record (`vision_json`, from VisionAgent). A field missing from
the Python dict is modelled by its `.get` default value. -/
structure RoomJson where
  room_type : String := ""
  max_capacity : Int := 0
  view_type : String := ""
  features : List String := []
  description : String := ""
deriving Repr, DecidableEq

/-- One scalar entry of `match_details`: query value, vision value and the
match flag (Python key `"match"`; `match` is a Lean keyword, hence `matched`). -/
structure FieldDetail (α : Type) where
  query : α
  vision : α
  matched : Bool
deriving Repr, DecidableEq

/-- The `"features"` entry of `match_details` (key `"matches"` holds the
Python local `matched_features`; `matches` is a Lean keyword). -/
structure FeatureDetail where
  query : List String
  vision : List String
  matched_features : List String
deriving Repr, DecidableEq

/-- The `match_details` dictionary built by `keyword_search` for one candidate:
an absent key is `none`. -/
structure MatchDetails where
  query_description : String
  room_type : Option (FieldDetail String) := none
  max_capacity : Option (FieldDetail Int) := none
  view_type : Option (FieldDetail String) := none
  features : Option FeatureDetail := none
deriving Repr, DecidableEq

/-- The room-type block of `keyword_search` (lines 83-95): returns its
contribution to `score`, its contribution to `max_score`, and the detail entry. -/
def roomStep (query_json vision_json : RoomJson) : ℚ × ℚ × Option (FieldDetail String) :=
  let query_room_type := lower query_json.room_type
  if query_room_type ≠ "" ∧ query_room_type ≠ "any" then
    let vision_room_type := lower vision_json.room_type
    let room_match := strIn query_room_type vision_room_type
    ((if room_match then 1 else 0), 1,
      some ⟨query_room_type, vision_room_type, room_match⟩)
  else (0, 0, none)

/-- The max-capacity block of `keyword_search` (lines 98-110). -/
def capacityStep (query_json vision_json : RoomJson) : ℚ × ℚ × Option (FieldDetail Int) :=
  let query_max_capacity := query_json.max_capacity
  if query_max_capacity > 0 then
    let vision_max_capacity := vision_json.max_capacity
    let capacity_match := decide (vision_max_capacity ≥ query_max_capacity)
    ((if capacity_match then 1 else 0), 1,
      some ⟨query_max_capacity, vision_max_capacity, capacity_match⟩)
  else (0, 0, none)

/-- The view-type block of `keyword_search` (lines 113-125). -/
def viewStep (query_json vision_json : RoomJson) : ℚ × ℚ × Option (FieldDetail String) :=
  let query_view_type := lower query_json.view_type
  if query_view_type ≠ "" ∧ query_view_type ∉ (["any", "standard"] : List String) then
    let vision_view_type := lower vision_json.view_type
    let view_match := strIn query_view_type vision_view_type
    ((if view_match then 1 else 0), 1,
      some ⟨query_view_type, vision_view_type, view_match⟩)
  else (0, 0, none)

/-- The nested feature loop of `keyword_search` (lines 133-138): for each query
feature in order, the inner loop scans candidate features and stops at the
first one containing it (`List.find?` = scan with `break`), appending the query
feature and adding `1.0` to the score. Returns (`matched_features`, score). -/
def featureLoop (vision_features : List String) : List String → List String × ℚ
  | [] => ([], 0)
  | feature :: rest =>
    let tail := featureLoop vision_features rest
    match vision_features.find? (fun vision_feature => strIn feature vision_feature) with
    | some _ => (feature :: tail.1, tail.2 + 1)
    | none => tail

/-- The features block of `keyword_search` (lines 128-144). -/
def featuresStep (query_json vision_json : RoomJson) : ℚ × ℚ × Option FeatureDetail :=
  let query_features := query_json.features.map lower
  if query_features ≠ [] then
    let vision_features := vision_json.features.map lower
    let fl := featureLoop vision_features query_features
    (fl.2, (query_features.length : ℚ),
      some ⟨query_features, vision_features, fl.1⟩)
  else (0, 0, none)

/-- The per-candidate body of the `keyword_search` loop (lines 75-144):
accumulated `score`, accumulated `max_score`, and the `match_details` dict. -/
def keywordEval (query_json vision_json : RoomJson) : ℚ × ℚ × MatchDetails :=
  let r := roomStep query_json vision_json
  let c := capacityStep query_json vision_json
  let w := viewStep query_json vision_json
  let f := featuresStep query_json vision_json
  (r.1 + c.1 + w.1 + f.1,
   r.2.1 + c.2.1 + w.2.1 + f.2.1,
   { query_description := query_json.description
     room_type := r.2.2
     max_capacity := c.2.2
     view_type := w.2.2
     features := f.2.2 })

/-- Line 147: `normalized_score = score / max_score if max_score > 0 else 0.0`. -/
def normalizedScore (query_json vision_json : RoomJson) : ℚ :=
  let e := keywordEval query_json vision_json
  if e.2.1 > 0 then e.1 / e.2.1 else 0

/-- `HybridSearch.keyword_search` (lines 49-154): score every candidate, keep
those with `normalized_score >= min_score`, sort by score descending
(Python `sorted` is a stable merge sort; so is `List.mergeSort`). -/
def keyword_search (query_json : RoomJson) (vision_results : List (String × RoomJson))
    (min_score : ℚ) : List (String × ℚ × MatchDetails) :=
  let results := vision_results.filterMap fun uv =>
    let ns := normalizedScore query_json uv.2
    if min_score ≤ ns then some (uv.1, ns, (keywordEval query_json uv.2).2.2) else none
  results.mergeSort fun a b => decide (b.2.1 ≤ a.2.1)

/-- Spec §8 scenario: full match scores `4/4 = 1.0`. -/
example :
    normalizedScore
      { room_type := "double", max_capacity := 2, view_type := "sea",
        features := ["balcony", "air conditioning"] }
      { room_type := "double", max_capacity := 2, view_type := "sea view",
        features := ["private balcony", "air conditioning", "TV"] } = 1 := by
  simp +decide [normalizedScore, keywordEval, roomStep, capacityStep, viewStep,
    featuresStep, featureLoop, lower, strIn]
  norm_num

/-- Room type and capacity mismatch, view matches, both features match: the
code scores `(0+0+1+2)/(1+1+1+2) = 3/5` (each query feature is one point of
`max_score`, so the denominator is 5 here, not 4). -/
example :
    normalizedScore
      { room_type := "double", max_capacity := 2, view_type := "sea",
        features := ["balcony", "air conditioning"] }
      { room_type := "single", max_capacity := 1, view_type := "sea view",
        features := ["balcony", "air conditioning"] } = 3 / 5 := by
  simp +decide [normalizedScore, keywordEval, roomStep, capacityStep, viewStep,
    featuresStep, featureLoop, lower, strIn]
  norm_num

/-- `HybridSearch.semantic_search` (lines 156-189). The external embedding
provider (`get_embedding`'s value behaviour) and the float cosine similarity
are oracle parameters: candidates are scored by the cosine similarity of the
query-description embedding and the candidate-description embedding. -/
def semantic_search {V : Type} (emb : String → V) (cosine_similarity : V → V → ℚ)
    (query_json : RoomJson) (vision_results : List (String × RoomJson)) :
    List (String × ℚ) :=
  let query_description := query_json.description
  if query_description = "" then []
  else
    let query_embedding := emb query_description
    let results := vision_results.filterMap fun uv =>
      if uv.2.description = "" then none
      else some (uv.1, cosine_similarity query_embedding (emb uv.2.description))
    results.mergeSort fun a b => decide (b.2 ≤ a.2)

/-- Python `dict.get(key, default)` over an insertion-ordered association list
with unique keys. -/
def getD {α : Type} (m : List (String × α)) (key : String) (default : α) : α :=
  match m.find? (fun p => p.1 == key) with
  | some p => p.2
  | none => default

/-- The `semantic_scores` dict of `hybrid_search` (line 221): semantic results
at or above `semantic_min_score`. -/
def semanticScoresMap {V : Type} (emb : String → V) (cosine_similarity : V → V → ℚ)
    (query_json : RoomJson) (vision_results : List (String × RoomJson))
    (semantic_min_score : ℚ) : List (String × ℚ) :=
  (semantic_search emb cosine_similarity query_json vision_results).filter
    fun p => decide (semantic_min_score ≤ p.2)

/-- One candidate's annotated detail dict in `hybrid_search` (lines 237-242):
the keyword `match_details` when present (`{}` = `none` otherwise), plus the
three score keys added to it. -/
structure HybridDetails where
  keyword_detail : Option MatchDetails
  semantic_score : ℚ
  keyword_score : ℚ
  combined_score : ℚ
deriving Repr, DecidableEq

/-- The combination stage of `HybridSearch.hybrid_search` (lines 210-244),
before sorting and truncation: one entry per URL in the union of the two
channels, with `combined_score = keyword_weight * keyword_score +
semantic_weight * semantic_score` (a score missing from a channel is `0.0`).
The union is materialised in a canonical order (Python iterates a `set`,
whose order is unspecified). -/
def hybridCombined {V : Type} (emb : String → V) (cosine_similarity : V → V → ℚ)
    (keyword_weight semantic_weight : ℚ) (query_json : RoomJson)
    (vision_results : List (String × RoomJson))
    (keyword_min_score semantic_min_score : ℚ) :
    List (String × ℚ × HybridDetails) :=
  let keyword_results := keyword_search query_json vision_results keyword_min_score
  let keyword_scores := keyword_results.map fun r => (r.1, r.2.1)
  let keyword_details := keyword_results.map fun r => (r.1, r.2.2)
  let semantic_scores :=
    semanticScoresMap emb cosine_similarity query_json vision_results semantic_min_score
  let all_urls := (keyword_scores.map Prod.fst ++ semantic_scores.map Prod.fst).dedup
  all_urls.map fun url =>
    let keyword_score := getD keyword_scores url 0
    let semantic_score := getD semantic_scores url 0
    let combined_score := keyword_weight * keyword_score + semantic_weight * semantic_score
    let details := (keyword_details.find? (fun p => p.1 == url)).map Prod.snd
    (url, combined_score, ⟨details, semantic_score, keyword_score, combined_score⟩)

/-- Line 247: the full combined result set sorted by combined score
descending, before truncation. -/
def hybridRanked {V : Type} (emb : String → V) (cosine_similarity : V → V → ℚ)
    (keyword_weight semantic_weight : ℚ) (query_json : RoomJson)
    (vision_results : List (String × RoomJson))
    (keyword_min_score semantic_min_score : ℚ) :
    List (String × ℚ × HybridDetails) :=
  (hybridCombined emb cosine_similarity keyword_weight semantic_weight query_json
      vision_results keyword_min_score semantic_min_score).mergeSort
    fun a b => decide (b.2.1 ≤ a.2.1)

/-- `HybridSearch.hybrid_search` (lines 191-248): combine the channels, sort by
combined score descending, truncate to `max_results` after sorting. -/
def hybrid_search {V : Type} (emb : String → V) (cosine_similarity : V → V → ℚ)
    (keyword_weight semantic_weight : ℚ) (query_json : RoomJson)
    (vision_results : List (String × RoomJson))
    (keyword_min_score semantic_min_score : ℚ) (max_results : Nat) :
    List (String × ℚ × HybridDetails) :=
  (hybridRanked emb cosine_similarity keyword_weight semantic_weight query_json
      vision_results keyword_min_score semantic_min_score).take max_results

/-- The `HybridSearch.__init__` default weights (line 19). -/
def keyword_weight_default : ℚ := 7 / 10

/-- The `HybridSearch.__init__` default semantic weight (line 19). -/
def semantic_weight_default : ℚ := 3 / 10

/-- The mutable state of one `HybridSearch` instance relevant to
`get_embedding`: the `embedding_cache` dict (insertion order) plus a log of
the texts for which the external provider (`client.embeddings.create`) was
actually called. -/
structure EmbedState (V : Type) where
  embedding_cache : List (String × V)
  provider_calls : List String
deriving Repr, DecidableEq

/-- `HybridSearch.get_embedding` (lines 31-43), with the provider as a
deterministic oracle: return the cached vector when the text is a cache key,
otherwise call the provider, record the vector in the cache and return it. -/
def get_embedding {V : Type} (provider : String → V) (st : EmbedState V)
    (text : String) : V × EmbedState V :=
  match st.embedding_cache.find? (fun p => p.1 == text) with
  | some p => (p.2, st)
  | none =>
    let embedding := provider text
    (embedding, ⟨st.embedding_cache ++ [(text, embedding)], st.provider_calls ++ [text]⟩)

/-- A fresh `HybridSearch` instance: empty `embedding_cache`, no provider
calls made. -/
def initEmbedState (V : Type) : EmbedState V := ⟨[], []⟩

/-- A sequence of `get_embedding` calls on one instance, state threaded
through. -/
def runEmbeds {V : Type} (provider : String → V) (texts : List String) : EmbedState V :=
  texts.foldl (fun st t => (get_embedding provider st t).2) (initEmbedState V)


/-! ## Spec-side definitions (§4.1), stated from the spec's wording, for the
refinement claims about the attribute matcher. -/

/-- Spec: room_type is active iff non-empty and not the sentinel "any"
(case-insensitive). -/
def specRoomActive (query_json : RoomJson) : Prop :=
  lower query_json.room_type ≠ "" ∧ lower query_json.room_type ≠ "any"

instance (q : RoomJson) : Decidable (specRoomActive q) := by
  unfold specRoomActive; infer_instance

/-- Spec: room type matches iff the query room type is a substring of the
candidate room type, case-insensitive. -/
def specRoomMatch (query_json vision_json : RoomJson) : Bool :=
  strIn (lower query_json.room_type) (lower vision_json.room_type)

/-- Spec: max_capacity is active iff `> 0`. -/
def specCapacityActive (query_json : RoomJson) : Prop :=
  query_json.max_capacity > 0

instance (q : RoomJson) : Decidable (specCapacityActive q) := by
  unfold specCapacityActive; infer_instance

/-- Spec: capacity matches iff candidate max_capacity ≥ query max_capacity. -/
def specCapacityMatch (query_json vision_json : RoomJson) : Bool :=
  decide (vision_json.max_capacity ≥ query_json.max_capacity)

/-- Spec: view_type is active iff non-empty and not in {"any","standard"}
(case-insensitive). -/
def specViewActive (query_json : RoomJson) : Prop :=
  lower query_json.view_type ≠ "" ∧
    lower query_json.view_type ∉ (["any", "standard"] : List String)

instance (q : RoomJson) : Decidable (specViewActive q) := by
  unfold specViewActive; infer_instance

/-- Spec: view type matches iff the query view type is a substring of the
candidate view type, case-insensitive. -/
def specViewMatch (query_json vision_json : RoomJson) : Bool :=
  strIn (lower query_json.view_type) (lower vision_json.view_type)

/-- Spec: a query feature matches iff it is a substring of ANY candidate
feature (case-insensitive). -/
def featureMatch (vision_json : RoomJson) (feature : String) : Bool :=
  (vision_json.features.map lower).any fun vision_feature => strIn feature vision_feature

/-- Spec-side score: every match of an active field contributes `1.0`, each
matched query feature contributes `1.0`. -/
def specScore (query_json vision_json : RoomJson) : ℚ :=
  (if specRoomActive query_json ∧ specRoomMatch query_json vision_json then 1 else 0)
  + (if specCapacityActive query_json ∧ specCapacityMatch query_json vision_json then 1 else 0)
  + (if specViewActive query_json ∧ specViewMatch query_json vision_json then 1 else 0)
  + ((query_json.features.map lower).countP (featureMatch vision_json) : ℚ)

/-- Spec-side max score: each active scalar field contributes `1.0`, an active
(non-empty) feature list contributes one point per requested feature. -/
def specMaxScore (query_json : RoomJson) : ℚ :=
  (if specRoomActive query_json then 1 else 0)
  + (if specCapacityActive query_json then 1 else 0)
  + (if specViewActive query_json then 1 else 0)
  + (if query_json.features ≠ [] then (query_json.features.length : ℚ) else 0)

/-! ## Helper lemmas -/

lemma find?_isSome_eq_any {α : Type} (p : α → Bool) (l : List α) :
    (l.find? p).isSome = l.any p := by
  induction l with
  | nil => rfl
  | cons a l ih =>
    rw [List.find?_cons, List.any_cons]
    cases h : p a <;> simp [h, ih]

lemma featureLoop_fst (vision_features query_features : List String) :
    (featureLoop vision_features query_features).1 =
      query_features.filter fun f => vision_features.any fun vf => strIn f vf := by
  induction query_features with
  | nil => rfl
  | cons f rest ih =>
    rw [featureLoop, List.filter_cons]
    cases h : vision_features.find? (fun vf => strIn f vf) with
    | none =>
      have ha : (vision_features.any fun vf => strIn f vf) = false := by
        rw [← find?_isSome_eq_any, h]; rfl
      simp [ha, ih]
    | some a =>
      have ha : (vision_features.any fun vf => strIn f vf) = true := by
        rw [← find?_isSome_eq_any, h]; rfl
      simp [ha, ih]

lemma featureLoop_snd (vision_features query_features : List String) :
    (featureLoop vision_features query_features).2 =
      ((query_features.countP fun f => vision_features.any fun vf => strIn f vf : ℕ) : ℚ) := by
  induction query_features with
  | nil => rfl
  | cons f rest ih =>
    rw [featureLoop, List.countP_cons]
    cases h : vision_features.find? (fun vf => strIn f vf) with
    | none =>
      have ha : (vision_features.any fun vf => strIn f vf) = false := by
        rw [← find?_isSome_eq_any, h]; rfl
      simp [ha, ih]
    | some a =>
      have ha : (vision_features.any fun vf => strIn f vf) = true := by
        rw [← find?_isSome_eq_any, h]; rfl
      simp [ha, ih]

lemma roomStep_fst (q v : RoomJson) :
    (roomStep q v).1 = if specRoomActive q ∧ specRoomMatch q v then 1 else 0 := by
  simp only [roomStep, specRoomActive, specRoomMatch]
  split_ifs <;> first | rfl | tauto

lemma roomStep_max (q v : RoomJson) :
    (roomStep q v).2.1 = if specRoomActive q then 1 else 0 := by
  simp only [roomStep, specRoomActive]
  split_ifs <;> rfl

lemma capacityStep_fst (q v : RoomJson) :
    (capacityStep q v).1 = if specCapacityActive q ∧ specCapacityMatch q v then 1 else 0 := by
  simp only [capacityStep, specCapacityActive, specCapacityMatch]
  split_ifs <;> first | rfl | tauto

lemma capacityStep_max (q v : RoomJson) :
    (capacityStep q v).2.1 = if specCapacityActive q then 1 else 0 := by
  simp only [capacityStep, specCapacityActive]
  split_ifs <;> rfl

lemma viewStep_fst (q v : RoomJson) :
    (viewStep q v).1 = if specViewActive q ∧ specViewMatch q v then 1 else 0 := by
  simp only [viewStep, specViewActive, specViewMatch]
  split_ifs <;> first | rfl | tauto

lemma viewStep_max (q v : RoomJson) :
    (viewStep q v).2.1 = if specViewActive q then 1 else 0 := by
  simp only [viewStep, specViewActive]
  split_ifs <;> rfl

lemma featuresStep_fst (q v : RoomJson) :
    (featuresStep q v).1 = ((q.features.map lower).countP (featureMatch v) : ℚ) := by
  simp only [featuresStep]
  split_ifs with h
  · rw [featureLoop_snd]
    rfl
  · rw [not_ne_iff] at h
    rw [h]
    simp

lemma featuresStep_max (q v : RoomJson) :
    (featuresStep q v).2.1 = if q.features ≠ [] then (q.features.length : ℚ) else 0 := by
  simp only [featuresStep]
  rcases eq_or_ne q.features [] with h | h
  · simp [h]
  · have h' : q.features.map lower ≠ [] := by simpa using h
    simp [h, h']

lemma featuresStep_detail (q v : RoomJson) :
    (featuresStep q v).2.2 =
      if q.features.map lower ≠ [] then
        some ⟨q.features.map lower, v.features.map lower,
          (q.features.map lower).filter fun f => featureMatch v f⟩
      else none := by
  simp only [featuresStep]
  split_ifs with h
  · rw [featureLoop_fst]
    rfl
  · rfl

lemma keywordEval_fst_eq (q v : RoomJson) : (keywordEval q v).1 = specScore q v := by
  simp only [keywordEval, specScore, roomStep_fst, capacityStep_fst, viewStep_fst,
    featuresStep_fst]

lemma keywordEval_max_eq (q v : RoomJson) : (keywordEval q v).2.1 = specMaxScore q := by
  simp only [keywordEval, specMaxScore, roomStep_max, capacityStep_max, viewStep_max,
    featuresStep_max]

/-- Claim C1: for every structured query and candidate record, the attribute
matcher of `keyword_search` scores exactly the active fields additively: the
accumulated `score` equals the spec-side sum of one point per matched active
scalar field (room type by case-insensitive substring, capacity by numeric
`≥`, view type by case-insensitive substring) plus one point per query feature
that is a substring of some candidate feature, and the accumulated `max_score`
equals one point per active scalar field plus `len(query_features)` for a
non-empty feature list. -/
theorem keyword_scoring_additive (q v : RoomJson) :
    (keywordEval q v).1 = specScore q v ∧ (keywordEval q v).2.1 = specMaxScore q :=
  ⟨keywordEval_fst_eq q v, keywordEval_max_eq q v⟩

lemma specScore_nonneg (q v : RoomJson) : 0 ≤ specScore q v := by
  unfold specScore
  have h4 : (0:ℚ) ≤ ((q.features.map lower).countP (featureMatch v) : ℚ) := by positivity
  refine add_nonneg (add_nonneg (add_nonneg ?_ ?_) ?_) h4 <;> split_ifs <;> norm_num

lemma specScore_le_specMaxScore (q v : RoomJson) : specScore q v ≤ specMaxScore q := by
  unfold specScore specMaxScore
  refine add_le_add (add_le_add (add_le_add ?_ ?_) ?_) ?_
  · split_ifs <;> tauto
  · split_ifs <;> tauto
  · split_ifs <;> tauto
  · rcases eq_or_ne q.features [] with h | h
    · simp [h]
    · rw [if_pos h]
      have hlen : (q.features.map lower).countP (featureMatch v) ≤ q.features.length := by
        calc (q.features.map lower).countP (featureMatch v)
            ≤ (q.features.map lower).length := List.countP_le_length _
          _ = q.features.length := List.length_map _ _
      exact_mod_cast hlen

/-- Claim C6: for every query and candidate, the normalized score of the
attribute matcher lies in `[0, 1]`. -/
theorem normalized_score_in_unit_interval (q v : RoomJson) :
    0 ≤ normalizedScore q v ∧ normalizedScore q v ≤ 1 := by
  have hs : 0 ≤ (keywordEval q v).1 := by
    rw [keywordEval_fst_eq]; exact specScore_nonneg q v
  have hsm : (keywordEval q v).1 ≤ (keywordEval q v).2.1 := by
    rw [keywordEval_fst_eq, keywordEval_max_eq]; exact specScore_le_specMaxScore q v
  simp only [normalizedScore]
  split_ifs with h
  · exact ⟨div_nonneg hs (le_of_lt h), (div_le_one h).mpr hsm⟩
  · norm_num

lemma specMaxScore_eq_zero {q : RoomJson}
    (hroom : lower q.room_type = "" ∨ lower q.room_type = "any")
    (hcap : q.max_capacity ≤ 0)
    (hview : lower q.view_type = "" ∨ lower q.view_type = "any" ∨
      lower q.view_type = "standard")
    (hfeat : q.features = []) : specMaxScore q = 0 := by
  have h1 : ¬ specRoomActive q := by unfold specRoomActive; tauto
  have h2 : ¬ specCapacityActive q := not_lt.mpr hcap
  have h3 : ¬ specViewActive q := by
    unfold specViewActive
    rintro ⟨hne, hnotmem⟩
    rcases hview with h | h | h
    · exact hne h
    · exact hnotmem (by simp [h])
    · exact hnotmem (by simp [h])
  unfold specMaxScore
  simp [h1, h2, h3, hfeat]

/-- Claim C5: the normalization division is guarded (`max_score = 0` yields a
normalized score of `0.0` rather than a division), and consequently a query in
which all four fields are inactive (empty or "any" room type, capacity ≤ 0,
empty/"any"/"standard" view type, empty feature list) gives every candidate a
normalized score of `0.0`, so no candidate passes any positive `min_score`. -/
theorem normalization_guarded (q : RoomJson)
    (hroom : lower q.room_type = "" ∨ lower q.room_type = "any")
    (hcap : q.max_capacity ≤ 0)
    (hview : lower q.view_type = "" ∨ lower q.view_type = "any" ∨
      lower q.view_type = "standard")
    (hfeat : q.features = []) :
    (∀ q' v', (keywordEval q' v').2.1 = 0 → normalizedScore q' v' = 0) ∧
    (∀ v, normalizedScore q v = 0) ∧
    ∀ (vision_results : List (String × RoomJson)) (min_score : ℚ),
      0 < min_score → keyword_search q vision_results min_score = [] := by
  have hmax : ∀ v, (keywordEval q v).2.1 = 0 := by
    intro v
    rw [keywordEval_max_eq]
    exact specMaxScore_eq_zero hroom hcap hview hfeat
  have hguard : ∀ q' v', (keywordEval q' v').2.1 = 0 → normalizedScore q' v' = 0 := by
    intro q' v' h
    simp only [normalizedScore]
    rw [h]
    norm_num
  have hzero : ∀ v, normalizedScore q v = 0 := fun v => hguard q v (hmax v)
  refine ⟨hguard, hzero, ?_⟩
  intro vision_results min_score hms
  simp only [keyword_search]
  have hnil : (vision_results.filterMap fun uv =>
      if min_score ≤ normalizedScore q uv.2 then
        some (uv.1, normalizedScore q uv.2, (keywordEval q uv.2).2.2) else none) = [] := by
    rw [List.filterMap_eq_nil_iff]
    intro uv _
    rw [hzero uv.2, if_neg (not_le.mpr hms)]
  rw [hnil, List.mergeSort_nil]

/-- Claim C5 witness: the all-default query (every field inactive) scores `0.0`
on every candidate and returns the empty ranking for `min_score = 1`. -/
theorem normalization_guarded_witness :
    (lower ({} : RoomJson).room_type = "" ∨ lower ({} : RoomJson).room_type = "any") ∧
    keyword_search {} [("room1.jpg", { room_type := "double" })] 1 = [] :=
  ⟨Or.inl (by decide),
    (normalization_guarded {} (Or.inl (by decide)) (by decide) (Or.inl (by decide))
      rfl).2.2 [("room1.jpg", { room_type := "double" })] 1 (by decide)⟩

/-- Claim C7: extending a candidate's feature list (all other fields fixed)
never decreases its normalized score; in particular making one previously
unmatched query feature match cannot lower the score. -/
theorem feature_extension_monotone (q v : RoomJson) (extra : List String)
    (hq : q.features ≠ []) :
    normalizedScore q v ≤ normalizedScore q { v with features := v.features ++ extra } := by
  have hmax : (keywordEval q { v with features := v.features ++ extra }).2.1
      = (keywordEval q v).2.1 := by
    rw [keywordEval_max_eq, keywordEval_max_eq]
  have hscore : (keywordEval q v).1 ≤ (keywordEval q { v with features := v.features ++ extra }).1 := by
    rw [keywordEval_fst_eq, keywordEval_fst_eq]
    unfold specScore
    refine add_le_add (add_le_add (add_le_add (le_refl _) (le_refl _)) (le_refl _)) ?_
    have hmono : (q.features.map lower).countP (featureMatch v) ≤
        (q.features.map lower).countP (featureMatch { v with features := v.features ++ extra }) := by
      refine List.countP_mono_left ?_
      intro f _ hp
      unfold featureMatch at hp ⊢
      simp only [List.map_append, List.any_append]
      simp only [hp, Bool.true_or]
    exact_mod_cast hmono
  simp only [normalizedScore]
  rw [hmax]
  split_ifs with h
  · exact (div_le_div_iff_of_pos_right h).mpr hscore
  · exact le_refl 0

/-- Claim C7 witness: a concrete query with a non-empty feature list and a
candidate gaining the matching feature. -/
theorem feature_extension_monotone_witness :
    ({ features := ["balcony"] } : RoomJson).features ≠ [] ∧
    normalizedScore { features := ["balcony"] } {} ≤
      normalizedScore { features := ["balcony"] } { features := [] ++ ["balcony"] } :=
  ⟨by decide,
    feature_extension_monotone { features := ["balcony"] } {} ["balcony"] (by decide)⟩

/-- Claim C10: the query feature list is a sequence, not a set. Duplicate
occurrences each contribute one point to `max_score` (`len(query_features)`
counts multiplicity), each matched occurrence contributes one point to `score`
(`countP` counts multiplicity), and each matching occurrence is appended
separately to the recorded matched-features list, so a feature occurring `k`
times and matching appears `k` times there (`count` over the filter). -/
theorem features_list_multiplicity (q v : RoomJson) (hq : q.features ≠ []) :
    (featuresStep q v).2.1 = ((q.features.map lower).length : ℚ) ∧
    (featuresStep q v).1 = ((q.features.map lower).countP (featureMatch v) : ℚ) ∧
    (featuresStep q v).2.2 = some ⟨q.features.map lower, v.features.map lower,
      (q.features.map lower).filter fun f => featureMatch v f⟩ ∧
    ∀ f, ((q.features.map lower).filter fun g => featureMatch v g).count f =
      if featureMatch v f then (q.features.map lower).count f else 0 := by
  have hmap : q.features.map lower ≠ [] := by simpa using hq
  refine ⟨?_, featuresStep_fst q v, ?_, ?_⟩
  · rw [featuresStep_max, if_pos hq]
    simp
  · rw [featuresStep_detail, if_pos hmap]
  · intro f
    by_cases hf : featureMatch v f
    · rw [if_pos hf, List.count_filter hf]
    · rw [if_neg hf, List.count_eq_zero]
      intro hmem
      exact hf (List.mem_filter.mp hmem).2

/-- Claim C10 witness: the feature `"balcony"` occurs twice in the query (once
as `"Balcony"`), matches the candidate, and is recorded twice. -/
theorem features_list_multiplicity_witness :
    ({ features := ["Balcony", "balcony"] } : RoomJson).features ≠ [] ∧
    ((({ features := ["Balcony", "balcony"] } : RoomJson).features.map lower).filter
        fun g => featureMatch { features := ["balcony view"] } g).count "balcony" =
      (if featureMatch { features := ["balcony view"] } "balcony" then
        (({ features := ["Balcony", "balcony"] } : RoomJson).features.map lower).count "balcony"
      else 0) :=
  ⟨by decide,
    (features_list_multiplicity { features := ["Balcony", "balcony"] }
      { features := ["balcony view"] } (by decide)).2.2.2 "balcony"⟩

lemma mem_keyword_search_iff (q : RoomJson) (vision_results : List (String × RoomJson))
    (min_score : ℚ) (u : String) (s : ℚ) (d : MatchDetails) :
    (u, s, d) ∈ keyword_search q vision_results min_score ↔
      ∃ vj, (u, vj) ∈ vision_results ∧ s = normalizedScore q vj ∧
        d = (keywordEval q vj).2.2 ∧ min_score ≤ s := by
  simp only [keyword_search]
  rw [List.Perm.mem_iff (List.mergeSort_perm _ _), List.mem_filterMap]
  constructor
  · rintro ⟨⟨u', vj⟩, hmem, heq⟩
    by_cases h : min_score ≤ normalizedScore q vj
    · rw [if_pos h] at heq
      simp only [Option.some.injEq, Prod.mk.injEq] at heq
      obtain ⟨hu, hs, hd⟩ := heq
      subst hu
      exact ⟨vj, hmem, hs.symm, hd.symm, hs ▸ h⟩
    · rw [if_neg h] at heq
      exact absurd heq (by simp)
  · rintro ⟨vj, hmem, hs, hd, hms⟩
    subst hs
    subst hd
    exact ⟨(u, vj), hmem, by rw [if_pos hms]⟩

/-- Claim C4: both thresholds are hard filters. The keyword ranking contains an
entry if and only if it comes from a corpus candidate whose normalized score is
at least `min_score`, and the semantic channel mapping of `hybrid_search` never
contains a candidate whose similarity is below `semantic_min_score`. -/
theorem thresholds_hard_filters {V : Type} (q : RoomJson) (emb : String → V)
    (cosine_similarity : V → V → ℚ) (vision_results : List (String × RoomJson))
    (min_score semantic_min_score : ℚ) :
    (∀ u s d, (u, s, d) ∈ keyword_search q vision_results min_score ↔
      ∃ vj, (u, vj) ∈ vision_results ∧ s = normalizedScore q vj ∧
        d = (keywordEval q vj).2.2 ∧ min_score ≤ s) ∧
    ∀ p ∈ semanticScoresMap emb cosine_similarity q vision_results semantic_min_score,
      semantic_min_score ≤ p.2 := by
  refine ⟨mem_keyword_search_iff q vision_results min_score, ?_⟩
  intro p hp
  unfold semanticScoresMap at hp
  exact of_decide_eq_true (List.mem_filter.mp hp).2

/-- Claim C4 witness: a concrete corpus entry passing the semantic threshold. -/
theorem thresholds_hard_filters_witness :
    ("u", (1:ℚ)) ∈ semanticScoresMap (fun _ => ()) (fun _ _ => 1)
      { description := "a" } [("u", { description := "b" })] 1 ∧
    (1:ℚ) ≤ (("u", (1:ℚ)) : String × ℚ).2 :=
  have hmem : ("u", (1:ℚ)) ∈ semanticScoresMap (fun _ => ()) (fun _ _ => 1)
      { description := "a" } [("u", { description := "b" })] 1 := by
    simp +decide [semanticScoresMap, semantic_search]
  ⟨hmem, (thresholds_hard_filters { description := "a" } (fun _ => ())
      (fun _ _ => (1:ℚ)) [("u", { description := "b" })] 0 1).2 ("u", 1) hmem⟩

/-- Claim C8: `semantic_search` returns the empty list whenever the query
description is empty; otherwise its entries are exactly the candidates with a
non-empty description, scored by cosine similarity of the query-description
embedding and the candidate-description embedding (empty-description candidates
are skipped, not scored zero). -/
theorem semantic_search_empty_skip (V : Type) (emb : String → V)
    (cosine_similarity : V → V → ℚ) (query_json : RoomJson)
    (vision_results : List (String × RoomJson)) :
    (query_json.description = "" →
      semantic_search emb cosine_similarity query_json vision_results = []) ∧
    (query_json.description ≠ "" →
      ∀ u s, (u, s) ∈ semantic_search emb cosine_similarity query_json vision_results ↔
        ∃ vj, (u, vj) ∈ vision_results ∧ vj.description ≠ "" ∧
          s = cosine_similarity (emb query_json.description) (emb vj.description)) := by
  constructor
  · intro h
    simp only [semantic_search]
    rw [if_pos h]
  · intro h u s
    simp only [semantic_search]
    rw [if_neg h, List.Perm.mem_iff (List.mergeSort_perm _ _), List.mem_filterMap]
    constructor
    · rintro ⟨⟨u', vj⟩, hmem, heq⟩
      by_cases hd : vj.description = ""
      · rw [if_pos hd] at heq
        exact absurd heq (by simp)
      · rw [if_neg hd] at heq
        simp only [Option.some.injEq, Prod.mk.injEq] at heq
        obtain ⟨hu, hs⟩ := heq
        subst hu
        exact ⟨vj, hmem, hd, hs.symm⟩
    · rintro ⟨vj, hmem, hd, hs⟩
      subst hs
      exact ⟨(u, vj), hmem, by rw [if_neg hd]⟩

/-- Claim C8 witness: the empty query description yields no semantic results;
a non-empty one scores the non-empty-description candidate. -/
theorem semantic_search_empty_skip_witness :
    semantic_search (fun _ => ()) (fun _ _ => (1:ℚ)) {} [("u", { description := "b" })] = [] ∧
    ("u", (1:ℚ)) ∈ semantic_search (fun _ => ()) (fun _ _ => (1:ℚ))
      { description := "a" } [("u", { description := "b" })] :=
  ⟨(semantic_search_empty_skip Unit (fun _ => ()) (fun _ _ => (1:ℚ)) {}
      [("u", { description := "b" })]).1 rfl,
   ((semantic_search_empty_skip Unit (fun _ => ()) (fun _ _ => (1:ℚ))
      { description := "a" } [("u", { description := "b" })]).2 (by decide) "u" 1).mpr
     ⟨{ description := "b" }, by decide, by decide, rfl⟩⟩

lemma hybridRanked_sorted {V : Type} (emb : String → V) (cosine_similarity : V → V → ℚ)
    (keyword_weight semantic_weight : ℚ) (query_json : RoomJson)
    (vision_results : List (String × RoomJson)) (keyword_min_score semantic_min_score : ℚ) :
    List.Sorted (fun (a b : String × ℚ × HybridDetails) => b.2.1 ≤ a.2.1)
      (hybridRanked emb cosine_similarity keyword_weight semantic_weight query_json
        vision_results keyword_min_score semantic_min_score) := by
  have h := @List.sorted_mergeSort (String × ℚ × HybridDetails)
    (fun a b => decide (b.2.1 ≤ a.2.1))
    (fun a b c hab hbc => by
      simp only [decide_eq_true_eq] at hab hbc ⊢
      exact le_trans hbc hab)
    (fun a b => by
      simp only [Bool.or_eq_true, decide_eq_true_eq]
      exact le_total b.2.1 a.2.1)
    (hybridCombined emb cosine_similarity keyword_weight semantic_weight query_json
      vision_results keyword_min_score semantic_min_score)
  exact h.imp fun hab => of_decide_eq_true hab

/-- Claim C3: the list returned by `hybrid_search` is sorted in descending
order of combined score, has length at most `max_results`, and is a prefix of
the full descending-sorted list of all scored union candidates (truncation
happens after sorting). -/
theorem hybrid_sorted_truncated (V : Type) (emb : String → V)
    (cosine_similarity : V → V → ℚ) (keyword_weight semantic_weight : ℚ)
    (query_json : RoomJson) (vision_results : List (String × RoomJson))
    (keyword_min_score semantic_min_score : ℚ) (max_results : Nat) :
    List.Sorted (fun (a b : String × ℚ × HybridDetails) => b.2.1 ≤ a.2.1)
      (hybrid_search emb cosine_similarity keyword_weight semantic_weight query_json
        vision_results keyword_min_score semantic_min_score max_results) ∧
    (hybrid_search emb cosine_similarity keyword_weight semantic_weight query_json
        vision_results keyword_min_score semantic_min_score max_results).length ≤ max_results ∧
    hybrid_search emb cosine_similarity keyword_weight semantic_weight query_json
        vision_results keyword_min_score semantic_min_score max_results <+:
      hybridRanked emb cosine_similarity keyword_weight semantic_weight query_json
        vision_results keyword_min_score semantic_min_score := by
  refine ⟨?_, ?_, ?_⟩
  · exact List.Pairwise.sublist (List.take_sublist _ _)
      (hybridRanked_sorted emb cosine_similarity keyword_weight semantic_weight query_json
        vision_results keyword_min_score semantic_min_score)
  · exact List.length_take_le _ _
  · exact ⟨(hybridRanked emb cosine_similarity keyword_weight semantic_weight query_json
      vision_results keyword_min_score semantic_min_score).drop max_results,
      List.take_append_drop _ _⟩

lemma hybridCombined_score {V : Type} (emb : String → V) (cosine_similarity : V → V → ℚ)
    (keyword_weight semantic_weight : ℚ) (query_json : RoomJson)
    (vision_results : List (String × RoomJson)) (keyword_min_score semantic_min_score : ℚ) :
    ∀ r ∈ hybridCombined emb cosine_similarity keyword_weight semantic_weight query_json
        vision_results keyword_min_score semantic_min_score,
      r.2.1 = keyword_weight *
          getD ((keyword_search query_json vision_results keyword_min_score).map
            fun x => (x.1, x.2.1)) r.1 0
        + semantic_weight *
          getD (semanticScoresMap emb cosine_similarity query_json vision_results
            semantic_min_score) r.1 0 := by
  intro r hr
  simp only [hybridCombined, List.mem_map] at hr
  obtain ⟨url, _, rfl⟩ := hr
  rfl

lemma hybridCombined_map_fst {V : Type} (emb : String → V) (cosine_similarity : V → V → ℚ)
    (keyword_weight semantic_weight : ℚ) (query_json : RoomJson)
    (vision_results : List (String × RoomJson)) (keyword_min_score semantic_min_score : ℚ) :
    (hybridCombined emb cosine_similarity keyword_weight semantic_weight query_json
        vision_results keyword_min_score semantic_min_score).map (fun r => r.1) =
      (((keyword_search query_json vision_results keyword_min_score).map fun r => r.1) ++
        (semanticScoresMap emb cosine_similarity query_json vision_results
          semantic_min_score).map Prod.fst).dedup := by
  simp only [hybridCombined, List.map_map]
  simp [Function.comp_def, List.map_id']

/-- Claim C2: before truncation, the identifiers of the hybrid ranking are
exactly the union of the identifiers that passed the keyword threshold and
those that passed the semantic threshold, each appearing exactly once, and
every entry's combined score is `keyword_weight * keyword_score +
semantic_weight * semantic_score`, a score missing from its channel's mapping
being taken as `0.0` and the weights applied as given. -/
theorem hybrid_union_scores (V : Type) (emb : String → V)
    (cosine_similarity : V → V → ℚ) (keyword_weight semantic_weight : ℚ)
    (query_json : RoomJson) (vision_results : List (String × RoomJson))
    (keyword_min_score semantic_min_score : ℚ) :
    ((hybridRanked emb cosine_similarity keyword_weight semantic_weight query_json
        vision_results keyword_min_score semantic_min_score).map fun r => r.1).Nodup ∧
    (∀ u, (u ∈ (hybridRanked emb cosine_similarity keyword_weight semantic_weight query_json
          vision_results keyword_min_score semantic_min_score).map fun r => r.1) ↔
      (u ∈ (keyword_search query_json vision_results keyword_min_score).map fun r => r.1) ∨
      u ∈ (semanticScoresMap emb cosine_similarity query_json vision_results
          semantic_min_score).map Prod.fst) ∧
    (hybridRanked emb cosine_similarity keyword_weight semantic_weight query_json
        vision_results keyword_min_score semantic_min_score).map (fun r => r.2.1) =
      (hybridRanked emb cosine_similarity keyword_weight semantic_weight query_json
        vision_results keyword_min_score semantic_min_score).map fun r =>
          keyword_weight *
            getD ((keyword_search query_json vision_results keyword_min_score).map
              fun x => (x.1, x.2.1)) r.1 0
          + semantic_weight *
            getD (semanticScoresMap emb cosine_similarity query_json vision_results
              semantic_min_score) r.1 0 := by
  have hperm : (hybridRanked emb cosine_similarity keyword_weight semantic_weight query_json
      vision_results keyword_min_score semantic_min_score).Perm
      (hybridCombined emb cosine_similarity keyword_weight semantic_weight query_json
        vision_results keyword_min_score semantic_min_score) := List.mergeSort_perm _ _
  have hfst := hybridCombined_map_fst emb cosine_similarity keyword_weight semantic_weight
    query_json vision_results keyword_min_score semantic_min_score
  refine ⟨?_, ?_, ?_⟩
  · refine ((hperm.map fun r => r.1).nodup_iff).mpr ?_
    rw [hfst]
    exact List.nodup_dedup _
  · intro u
    rw [(hperm.map fun r => r.1).mem_iff, hfst, List.mem_dedup, List.mem_append]
  · refine List.map_congr_left ?_
    intro r hr
    exact hybridCombined_score emb cosine_similarity keyword_weight semantic_weight
      query_json vision_results keyword_min_score semantic_min_score r (hperm.mem_iff.mp hr)

lemma get_embedding_inv {V : Type} (provider : String → V) (st : EmbedState V) (t : String)
    (hnd : st.provider_calls.Nodup)
    (hcache : ∀ x ∈ st.provider_calls, ∃ p ∈ st.embedding_cache, p.1 = x) :
    (get_embedding provider st t).2.provider_calls.Nodup ∧
      ∀ x ∈ (get_embedding provider st t).2.provider_calls,
        ∃ p ∈ (get_embedding provider st t).2.embedding_cache, p.1 = x := by
  unfold get_embedding
  cases h : st.embedding_cache.find? (fun p => p.1 == t) with
  | some p => exact ⟨hnd, hcache⟩
  | none =>
    simp only
    have hnotin : t ∉ st.provider_calls := by
      intro hin
      obtain ⟨p, hp, hpt⟩ := hcache t hin
      have hfalse := List.find?_eq_none.mp h p hp
      simp [hpt] at hfalse
    constructor
    · rw [List.nodup_append]
      refine ⟨hnd, List.nodup_singleton t, ?_⟩
      intro a ha hb
      rw [List.mem_singleton] at hb
      subst hb
      exact hnotin ha
    · intro x hx
      rw [List.mem_append] at hx
      rcases hx with hx | hx
      · obtain ⟨p, hp, hpt⟩ := hcache x hx
        exact ⟨p, List.mem_append_left _ hp, hpt⟩
      · rw [List.mem_singleton] at hx
        subst hx
        exact ⟨(x, provider x), List.mem_append_right _ (by simp), rfl⟩

lemma runEmbeds_nodup {V : Type} (provider : String → V) (texts : List String) :
    (runEmbeds provider texts).provider_calls.Nodup := by
  suffices h : ∀ (ts : List String) (st : EmbedState V), st.provider_calls.Nodup →
      (∀ x ∈ st.provider_calls, ∃ p ∈ st.embedding_cache, p.1 = x) →
      (ts.foldl (fun s t => (get_embedding provider s t).2) st).provider_calls.Nodup by
    exact h texts (initEmbedState V) List.nodup_nil
      (fun x hx => absurd hx (List.not_mem_nil x))
  intro ts
  induction ts with
  | nil => exact fun st hnd _ => hnd
  | cons t rest ih =>
    intro st hnd hcache
    rw [List.foldl_cons]
    obtain ⟨h1, h2⟩ := get_embedding_inv provider st t hnd hcache
    exact ih _ h1 h2

/-- Claim C9: per `HybridSearch` instance, `get_embedding` on a text already in
the cache returns exactly the cached vector with the state (and hence the
provider-call log) unchanged; a repeated call is a no-op; and over any call
sequence from a fresh instance, each distinct text triggers at most one
provider call. -/
theorem embedding_cache_idempotent (V : Type) (provider : String → V)
    (st : EmbedState V) (text : String) :
    (∀ p, st.embedding_cache.find? (fun q => q.1 == text) = some p →
      get_embedding provider st text = (p.2, st)) ∧
    get_embedding provider (get_embedding provider st text).2 text
      = ((get_embedding provider st text).1, (get_embedding provider st text).2) ∧
    ∀ texts : List String, (runEmbeds provider texts).provider_calls.Nodup := by
  refine ⟨?_, ?_, fun texts => runEmbeds_nodup provider texts⟩
  · intro p h
    unfold get_embedding
    rw [h]
  · cases h : st.embedding_cache.find? (fun p => p.1 == text) with
    | some p => simp only [get_embedding, h]
    | none =>
      simp only [get_embedding, h]
      have hfind : (st.embedding_cache ++ [(text, provider text)]).find?
          (fun p => p.1 == text) = some (text, provider text) := by
        rw [List.find?_append, h]
        simp [List.find?]
      simp only [hfind]

/-- Claim C9 witness: a cache already holding `"a"` returns the stored vector
unchanged. -/
theorem embedding_cache_idempotent_witness :
    get_embedding (fun _ => (0 : Nat)) ⟨[("a", 7)], ["a"]⟩ "a" = (7, ⟨[("a", 7)], ["a"]⟩) :=
  (embedding_cache_idempotent Nat (fun _ => 0) ⟨[("a", 7)], ["a"]⟩ "a").1 ("a", 7) rfl
